import Mathlib

/-!
# Verification of the starcam frame-broadcast pipeline

Shallow embedding of `src/camserver/camserver.py`: the per-frame callback
(normalization, histogram, wire encoding, fan-out to websocket clients),
the module-level client set mutated by `ws_open` / `ws_close`, and the
one-shot producer start guarded by the `started` flag.

Frames are 2D grids of unsigned samples, modelled as `List (List Nat)`.
Wire messages are byte sequences, modelled as `List Nat` with each entry
a byte value.  Clients are identified by `Nat`.
-/

namespace Starcam

/-! ## Wire magics (module-level constants in camserver.py) -/

def frameheader : Nat := 0xf8a3f8a3
def frameinfoheader : Nat := 0x325a329a
def framehistogramheader : Nat := 0x348da5f8

/-- Model of `n.to_bytes(4, 'little')`: four little-endian bytes of `n`. -/
def toLE4 (n : Nat) : List Nat :=
  [n % 256, n / 256 % 256, n / 65536 % 256, n / 16777216 % 256]

/-- Read a 32-bit unsigned value back from four little-endian bytes. -/
def fromLE4 (b : List Nat) : Nat :=
  match b with
  | [a, b1, c, d] => a + 256 * b1 + 65536 * c + 16777216 * d
  | _ => 0

theorem toLE4_length (n : Nat) : (toLE4 n).length = 4 := rfl

theorem fromLE4_toLE4 (n : Nat) (h : n < 4294967296) : fromLE4 (toLE4 n) = n := by
  simp only [toLE4, fromLE4]
  omega

/-! ## Client registry (the module-level `clients` set)

`ws_open` does `clients.add(ws)`; `ws_close` does `clients.remove(ws)`.
Python's `set.remove` raises `KeyError` when the element is absent, so the
removal is modelled as a fallible operation. -/

/-- Model of `clients.add(ws)` — Python set insertion. -/
def registryAdd (s : Finset Nat) (c : Nat) : Finset Nat := insert c s

/-- Model of `clients.remove(ws)` — Python `set.remove`, which raises `KeyError`
when the element is not present. -/
def registryRemove (s : Finset Nat) (c : Nat) : Except String (Finset Nat) :=
  if c ∈ s then Except.ok (s.erase c) else Except.error "KeyError"

/-! ## Server state machine (`ws_open` / `ws_close` and the `started` flag)

`ws_open` adds the client, then checks the module-level `started` flag and,
when it is still false, sets it and spawns the `simcam` producer task.
There is no await point between the check and the set, so under the single
asyncio event loop the check-and-set is one atomic step; each handler is
modelled as one atomic event.  `producerTasks` counts `create_task(simcam())`
calls. -/

structure SrvState where
  clients : Finset Nat
  started : Bool
  producerTasks : Nat
deriving DecidableEq

def initState : SrvState := ⟨∅, false, 0⟩

inductive Ev where
  | wsOpen (c : Nat)
  | wsClose (c : Nat)
deriving DecidableEq

/-- One transport event handled to completion.  `wsClose` on an absent
client raises inside the handler (see `registryRemove`), leaving state
unchanged; erase on an absent element is likewise the identity. -/
def step (s : SrvState) (e : Ev) : SrvState :=
  match e with
  | Ev.wsOpen c =>
      if s.started then { s with clients := insert c s.clients }
      else { clients := insert c s.clients, started := true,
             producerTasks := s.producerTasks + 1 }
  | Ev.wsClose c => { s with clients := s.clients.erase c }

def run (evs : List Ev) : SrvState := evs.foldl step initState

/-! ## Broadcast trace model of `callback(frame, timestamp)`

The body of `callback`, in source order:
right-shift, histogram, build frameinfo, build senddata, build
framehistogram, early return when `clients` is empty, then per client a
`try` block sending info, histogram, pixel data, whose `except` logs the
error and continues with the next client.  The trace records the work
performed; `fails c m` says whether `client.send` raises for client `c`
on message kind `m`. -/

inductive MsgKind where
  | info
  | histo
  | framedata
deriving DecidableEq

inductive Eff where
  | histComputed
  | builtInfo
  | builtFrame
  | builtHist
  | sent (c : Nat) (m : MsgKind)
  | loggedError (c : Nat)
deriving DecidableEq

/-- The three sends attempted for one client inside the `try` block: a
raising send emits no message, skips the client's remaining sends, and is
logged; the loop then continues. -/
def clientSends (fails : Nat → MsgKind → Bool) (c : Nat) : List Eff :=
  if fails c MsgKind.info then [Eff.loggedError c]
  else Eff.sent c MsgKind.info ::
    (if fails c MsgKind.histo then [Eff.loggedError c]
     else Eff.sent c MsgKind.histo ::
       (if fails c MsgKind.framedata then [Eff.loggedError c]
        else [Eff.sent c MsgKind.framedata]))

/-- Trace of one `callback` invocation over the snapshot `clients`
(`list(clients)`).  The empty-registry check sits after the histogram and
all three message constructions, exactly as in the source. -/
def callbackTrace (clients : List Nat) (fails : Nat → MsgKind → Bool) : List Eff :=
  [Eff.histComputed, Eff.builtInfo, Eff.builtFrame, Eff.builtHist] ++
    (if clients.isEmpty then [] else (clients.map (clientSends fails)).flatten)

/-- The registry after one `callback`: the broadcast loop catches a raised
send but performs no removal, so the client set is returned unchanged. -/
def callbackRegistryAfter (clients : Finset Nat) (_fails : Nat → MsgKind → Bool) :
    Finset Nat := clients

/-- A producer run invoking `callback` once per produced frame, each frame
tagged with its production time in milliseconds.  `callback` never reads
the clock: the trace of every frame is the same function of the snapshot. -/
def runProducer (times : List Nat) (clients : List Nat)
    (fails : Nat → MsgKind → Bool) : List (Nat × List Eff) :=
  times.map (fun t => (t, callbackTrace clients fails))

/-! ## Frame processing (`np.right_shift` and `compute_histogram`) -/

/-- Model of `np.right_shift(frame, 4)` elementwise on the 2D sample grid; on
unsigned samples the shift is division by 16. -/
def normalizeFrame (f : List (List Nat)) : List (List Nat) :=
  f.map (fun row => row.map (fun v => v / 16))

/-- Membership of sample `v` in bin `i` of
`np.histogram(frame, bins=1024, range=(0, 4096))`: 1024 equal-width bins
of width 4, each half-open, except the last which is closed on the right. -/
def inBin (i : Nat) (v : Nat) : Bool :=
  if i = 1023 then decide (4092 ≤ v ∧ v ≤ 4096)
  else decide (4 * i ≤ v ∧ v < 4 * (i + 1))

/-- The bin counts `np.histogram` returns, before the saturation-bin
zeroing. -/
def rawHist (vals : List Nat) : List Nat :=
  (List.range 1024).map (fun i => (vals.filter (inBin i)).length)

/-- Model of `hist[-1] = 0`. -/
def zeroLast (l : List Nat) : List Nat :=
  if l = [] then [] else l.dropLast ++ [0]

/-- Bin-edge midpoints `(bins[1:] + bins[:-1]) / 2` as exact rationals.
The edges for `range=(0, 4096)` with 1024 bins are the integers `4*i`;
the edges, their sums and the halvings are all exactly representable in
double precision, so rational arithmetic models the float computation
exactly. -/
def midpointsQ : List ℚ :=
  (List.range 1024).map (fun i : ℕ => (4 * (i : ℚ) + 4 * ((i : ℚ) + 1)) / 2)

/-- Model of `bins.astype(np.uint32)`: float-to-unsigned conversion truncates
toward zero. -/
def midpointsU32 : List Nat := midpointsQ.map (fun q => q.floor.toNat)

/-- Model of `compute_histogram(frame)` on the flattened sample list: the 1024 bin
counts with the last one zeroed, and the 1024 bin-edge midpoints. -/
def compute_histogram (vals : List Nat) : List Nat × List ℚ :=
  (zeroLast (rawHist vals), midpointsQ)

/-- The count that fell into the saturation (last) bin before zeroing. -/
def satCount (vals : List Nat) : Nat := (vals.filter (inBin 1023)).length

/-! ## Wire encoding (message construction inside `callback`) -/

/-- Decimal digit character. -/
def digitChar (d : Nat) : Char := Char.ofNat (48 + d)

/-- Decimal rendering of a natural number, most significant digit first,
as Python's `json.dumps` prints the shape integers. -/
def natDigits (n : Nat) : List Char :=
  if _h : n < 10 then [digitChar n]
  else natDigits (n / 10) ++ [digitChar (n % 10)]
decreasing_by exact Nat.div_lt_self (by omega) (by omega)

/-- UTF-8 encoding of an ASCII character list (every character of the
JSON body is ASCII, one byte per character). -/
def utf8 (s : List Char) : List Nat := s.map Char.toNat

/-- The JSON body `json.dumps({'timestamp': timestamp.isoformat(),
'shape': frame.shape, 'dtype': str(frame.dtype)})` produces, with
Python's default separators. -/
def infoBody (ts : List Char) (r c : Nat) (dt : List Char) : List Char :=
  "\x7b\"timestamp\": \"".data ++ (ts ++ ("\", \"shape\": [".data ++
    (natDigits r ++ (", ".data ++ (natDigits c ++
    ("], \"dtype\": \"".data ++ (dt ++ "\"\x7d".data)))))))

/-- The `frameinfo` message: info magic then the UTF-8 JSON body. -/
def encodeInfo (ts : List Char) (r c : Nat) (dt : List Char) : List Nat :=
  toLE4 frameinfoheader ++ utf8 (infoBody ts r c dt)

/-- The `framehistogram` message: histogram magic, then the 1024 midpoints as
little-endian u32, then the 1024 bin counts as little-endian u32
(`astype(np.uint32)` wraps modulo 2^32). -/
def encodeHist (counts : List Nat) : List Nat :=
  toLE4 framehistogramheader ++ ((midpointsU32.map toLE4).flatten ++
    ((counts.map (fun n => n % 4294967296)).map toLE4).flatten)

/-- A little-endian 16-bit sample, as `frame.tobytes()`
lays out each uint16 sample. -/
def toLE2 (v : Nat) : List Nat := [v % 256, v / 256 % 256]

/-- The `senddata` message: frame magic then the raw pixel buffer, row-major, two
little-endian bytes per sample. -/
def encodeFrameMsg (f : List (List Nat)) : List Nat :=
  toLE4 frameheader ++ (f.flatten.map toLE2).flatten

/-- The per-frame wire messages in the order `callback` sends them to
each client: frameinfo, framehistogram, senddata. -/
def encode (f : List (List Nat)) (counts : List Nat)
    (ts dt : List Char) : List (List Nat) :=
  [encodeInfo ts f.length (f.headI.length) dt, encodeHist counts, encodeFrameMsg f]

/-! ## Wire decoding (modelling a receiving client) -/

/-- Consume an expected literal character sequence. -/
def expectLit (lit s : List Char) : Option (List Char) :=
  if s.take lit.length = lit then some (s.drop lit.length) else none

/-- Split a quoted-string body at the closing `"`. -/
def takeToQuote (s : List Char) : List Char × List Char :=
  (s.takeWhile (fun c => c ≠ '"'), s.dropWhile (fun c => c ≠ '"'))

/-- Numeric value of a most-significant-first decimal digit list. -/
def digitsVal (s : List Char) : Nat :=
  s.foldl (fun acc c => acc * 10 + (c.toNat - 48)) 0

/-- Split at the end of a decimal number. -/
def takeDigits (s : List Char) : List Char × List Char :=
  (s.takeWhile Char.isDigit, s.dropWhile Char.isDigit)

/-- Parse the frameinfo JSON body back into (timestamp, rows, cols,
dtype). -/
def parseInfoBody (s : List Char) : Option (List Char × Nat × Nat × List Char) :=
  (expectLit "\x7b\"timestamp\": \"".data s).bind (fun s1 =>
    (expectLit "\", \"shape\": [".data (takeToQuote s1).2).bind (fun s2 =>
      (expectLit ", ".data (takeDigits s2).2).bind (fun s3 =>
        (expectLit "], \"dtype\": \"".data (takeDigits s3).2).bind (fun s4 =>
          (expectLit "\"\x7d".data (takeToQuote s4).2).bind (fun s5 =>
            if s5 = [] then
              some ((takeToQuote s1).1, digitsVal (takeDigits s2).1,
                digitsVal (takeDigits s3).1, (takeToQuote s4).1)
            else none)))))

/-- Decode the frameinfo message: check the magic, decode the UTF-8 body,
parse the JSON fields. -/
def decodeInfo (msg : List Nat) : Option (List Char × Nat × Nat × List Char) :=
  if msg.take 4 = toLE4 frameinfoheader then
    parseInfoBody ((msg.drop 4).map Char.ofNat)
  else none

/-- Read `k` little-endian u32 values from a byte sequence. -/
def readU32s : Nat → List Nat → List Nat
  | 0, _ => []
  | k + 1, b => fromLE4 (b.take 4) :: readU32s k (b.drop 4)

/-- Decode the framehistogram message: check the magic, then read 1024
bin-edge values followed by 1024 bin counts. -/
def decodeHist (msg : List Nat) : Option (List Nat × List Nat) :=
  if msg.take 4 = toLE4 framehistogramheader then
    some (readU32s 1024 (msg.drop 4), readU32s 1024 (msg.drop 4100))
  else none

/-! ## Helper lemmas -/

theorem isEmpty_false_of_mem {clients : List ℕ} {a : ℕ} (ha : a ∈ clients) :
    clients.isEmpty = false := by
  cases clients with
  | nil => cases ha
  | cons x xs => rfl

/-- Every invocation of the callback performs the histogram computation and
builds all three messages, before the client-count check. -/
theorem builds_in_trace (clients : List ℕ) (fails : ℕ → MsgKind → Bool) :
    Eff.histComputed ∈ callbackTrace clients fails ∧
    Eff.builtInfo ∈ callbackTrace clients fails ∧
    Eff.builtFrame ∈ callbackTrace clients fails ∧
    Eff.builtHist ∈ callbackTrace clients fails := by
  simp [callbackTrace]

/-- A client whose sends all succeed receives all three messages. -/
theorem sends_all_of_ok (clients : List ℕ) (fails : ℕ → MsgKind → Bool) (c : ℕ)
    (hc : c ∈ clients) (hok : ∀ m, fails c m = false) :
    ∀ m, Eff.sent c m ∈ callbackTrace clients fails := by
  intro m
  unfold callbackTrace
  rw [isEmpty_false_of_mem hc]
  refine List.mem_append_right _ (List.mem_flatten.mpr ⟨clientSends fails c, List.mem_map_of_mem _ hc, ?_⟩)
  simp only [clientSends, hok, if_neg Bool.false_ne_true]
  cases m <;> simp

/-- A client whose first send raises has its error logged. -/
theorem logged_of_fail (clients : List ℕ) (fails : ℕ → MsgKind → Bool) (a : ℕ)
    (ha : a ∈ clients) (hfa : fails a MsgKind.info = true) :
    Eff.loggedError a ∈ callbackTrace clients fails := by
  unfold callbackTrace
  rw [isEmpty_false_of_mem ha]
  refine List.mem_append_right _ (List.mem_flatten.mpr ⟨clientSends fails a, List.mem_map_of_mem _ ha, ?_⟩)
  simp [clientSends, hfa]

theorem step_started_iff (s : SrvState) (e : Ev) :
    (step s e).started = true ↔ s.started = true ∨ ∃ c, e = Ev.wsOpen c := by
  cases e with
  | wsOpen c =>
      by_cases h : s.started = true <;> simp [step, h]
  | wsClose c => simp [step]

theorem foldl_step_inv (evs : List Ev) (s : SrvState)
    (h1 : s.producerTasks ≤ 1) (h2 : s.started = true ↔ s.producerTasks = 1) :
    (evs.foldl step s).producerTasks ≤ 1 ∧
      ((evs.foldl step s).started = true ↔ (evs.foldl step s).producerTasks = 1) := by
  induction evs generalizing s with
  | nil => exact ⟨h1, h2⟩
  | cons e evs ih =>
      refine ih (step s e) ?_ ?_
      · cases e with
        | wsOpen c =>
            by_cases h : s.started = true
            · simpa [step, h] using h1
            · have : s.producerTasks = 0 := by
                rcases Nat.lt_or_ge s.producerTasks 1 with h0 | h0
                · omega
                · exact absurd (h2.mpr (by omega)) h
              simp [step, h, this]
        | wsClose c => simpa [step] using h1
      · cases e with
        | wsOpen c =>
            by_cases h : s.started = true
            · simpa [step, h] using h2
            · have : s.producerTasks = 0 := by
                rcases Nat.lt_or_ge s.producerTasks 1 with h0 | h0
                · omega
                · exact absurd (h2.mpr (by omega)) h
              simp [step, h, this]
        | wsClose c => simpa [step] using h2

theorem foldl_step_started_mono (more : List Ev) (s : SrvState) (h : s.started = true) :
    (more.foldl step s).started = true := by
  induction more generalizing s with
  | nil => exact h
  | cons e evs ih =>
      refine ih (step s e) ?_
      exact (step_started_iff s e).mpr (Or.inl h)

theorem foldl_step_started_iff (evs : List Ev) (s : SrvState) :
    ((evs.foldl step s).started = true) ↔
      (s.started = true ∨ ∃ c, Ev.wsOpen c ∈ evs) := by
  induction evs generalizing s with
  | nil => simp
  | cons e evs ih =>
      rw [List.foldl_cons, ih, step_started_iff]
      constructor
      · rintro ((h | ⟨c, rfl⟩) | ⟨c, hc⟩)
        · exact Or.inl h
        · exact Or.inr ⟨c, List.mem_cons_self _ _⟩
        · exact Or.inr ⟨c, List.mem_cons_of_mem _ hc⟩
      · rintro (h | ⟨c, hc⟩)
        · exact Or.inl (Or.inl h)
        · rcases List.mem_cons.mp hc with h | h
          · exact Or.inl (Or.inr ⟨c, h.symm⟩)
          · exact Or.inr ⟨c, h⟩

/-! ## Claim theorems -/

/-- C1 (counterexample): with an empty client snapshot, the callback still
computes the histogram and still builds all three wire messages — the
empty-registry early return sits after that work, so the claimed
"skips histogram computation and the construction of all three wire
messages" is false at this concrete input. -/
theorem empty_snapshot_still_encodes_c1_cex :
    Eff.histComputed ∈ callbackTrace [] (fun _ _ => false) ∧
    Eff.builtInfo ∈ callbackTrace [] (fun _ _ => false) ∧
    Eff.builtFrame ∈ callbackTrace [] (fun _ _ => false) ∧
    Eff.builtHist ∈ callbackTrace [] (fun _ _ => false) := by decide

/-- C1 (amended): with an empty client snapshot the broadcast makes no send
calls and logs no errors — the trace is exactly the processing/encoding
work: histogram computation followed by construction of the three wire
messages, with nothing sent. -/
theorem empty_snapshot_no_sends_c1 (fails : ℕ → MsgKind → Bool) :
    callbackTrace [] fails =
      [Eff.histComputed, Eff.builtInfo, Eff.builtFrame, Eff.builtHist] := rfl

/-- C2 (counterexample): removing an absent client is not a no-op — Python
set.remove raises KeyError, here on the empty registry. -/
theorem remove_absent_raises_c2_cex :
    registryRemove ∅ 0 = Except.error "KeyError" := rfl

/-- C2 (amended): after add(c), remove(c) succeeds and the resulting
registry (hence any subsequent snapshot) does not contain c; but remove(c)
when c is absent raises KeyError rather than being a no-op. -/
theorem remove_after_add_c2 (s : Finset ℕ) (c : ℕ) :
    registryRemove (registryAdd s c) c = Except.ok ((registryAdd s c).erase c) ∧
    c ∉ (registryAdd s c).erase c ∧
    (c ∉ s → registryRemove s c = Except.error "KeyError") := by
  refine ⟨?_, Finset.not_mem_erase c _, ?_⟩
  · simp [registryRemove, registryAdd]
  · intro h
    simp [registryRemove, h]

theorem remove_after_add_c2_witness :
    registryRemove (registryAdd ∅ 5) 5 = Except.ok ((registryAdd (∅ : Finset ℕ) 5).erase 5) ∧
    5 ∉ (registryAdd (∅ : Finset ℕ) 5).erase 5 ∧
    registryRemove ∅ 5 = Except.error "KeyError" :=
  ⟨(remove_after_add_c2 ∅ 5).1, (remove_after_add_c2 ∅ 5).2.1,
    (remove_after_add_c2 ∅ 5).2.2 (by decide)⟩

/-- C3 (counterexample): with clients {0, 1} where client 0's send always
raises, after the broadcast client 0 is still in the registry — no
removal is scheduled, contradicting the claim; the error is logged and
client 1 still receives all three messages. -/
theorem failing_client_not_removed_c3_cex :
    (0 : ℕ) ∈ callbackRegistryAfter {0, 1} (fun c _ => decide (c = 0)) ∧
    Eff.loggedError 0 ∈ callbackTrace [0, 1] (fun c _ => decide (c = 0)) ∧
    Eff.sent 1 MsgKind.info ∈ callbackTrace [0, 1] (fun c _ => decide (c = 0)) ∧
    Eff.sent 1 MsgKind.histo ∈ callbackTrace [0, 1] (fun c _ => decide (c = 0)) ∧
    Eff.sent 1 MsgKind.framedata ∈ callbackTrace [0, 1] (fun c _ => decide (c = 0)) := by
  decide

/-- C3 (amended): a raised send error for one client is caught and logged
and never aborts delivery to the remaining clients — every client whose
sends succeed receives all three messages — but the failing client is not
removed: the registry is returned unchanged. -/
theorem send_failure_isolation_c3 (clients : List ℕ) (fails : ℕ → MsgKind → Bool)
    (a b : ℕ) (ha : a ∈ clients) (hfa : fails a MsgKind.info = true)
    (hb : b ∈ clients) (hok : ∀ m, fails b m = false) :
    (∀ S : Finset ℕ, callbackRegistryAfter S fails = S) ∧
    Eff.loggedError a ∈ callbackTrace clients fails ∧
    ∀ m, Eff.sent b m ∈ callbackTrace clients fails :=
  ⟨fun _ => rfl, logged_of_fail clients fails a ha hfa,
    sends_all_of_ok clients fails b hb hok⟩

theorem send_failure_isolation_c3_witness :
    (∀ S : Finset ℕ, callbackRegistryAfter S (fun c _ => decide (c = 0)) = S) ∧
    Eff.loggedError 0 ∈ callbackTrace [0, 1] (fun c _ => decide (c = 0)) ∧
    ∀ m, Eff.sent 1 m ∈ callbackTrace [0, 1] (fun c _ => decide (c = 0)) :=
  send_failure_isolation_c3 [0, 1] (fun c _ => decide (c = 0)) 0 1
    (by decide) (by decide) (by decide) (fun m => by cases m <;> decide)

/-- C4 (counterexample): two frames produced 10 ms apart — far closer than
the claimed 150 ms minimum interval — are both fully processed and sent:
the later frame is encoded (histogram computed) and delivered to the
client, so no frame is dropped. -/
theorem close_frames_both_sent_c4_cex :
    (10 : ℕ) - 0 < 150 ∧
    ((runProducer [0, 10] [7] (fun _ _ => false)).getD 1 (0, [])).1 = 10 ∧
    Eff.histComputed ∈ ((runProducer [0, 10] [7] (fun _ _ => false)).getD 1 (0, [])).2 ∧
    Eff.sent 7 MsgKind.info ∈ ((runProducer [0, 10] [7] (fun _ _ => false)).getD 1 (0, [])).2 ∧
    Eff.sent 7 MsgKind.histo ∈ ((runProducer [0, 10] [7] (fun _ _ => false)).getD 1 (0, [])).2 ∧
    Eff.sent 7 MsgKind.framedata ∈ ((runProducer [0, 10] [7] (fun _ _ => false)).getD 1 (0, [])).2 := by
  decide

/-- C4 (amended): the broadcaster enforces no minimum inter-send interval:
the callback never consults the clock, so every produced frame — including
one arriving arbitrarily soon (here within 150 ms) after the previous
frame — is processed, encoded, and sent to every client whose sends
succeed. -/
theorem no_rate_limiting_c4 (tPrev tNow : ℕ) (_hclose : tNow - tPrev < 150)
    (clients : List ℕ) (fails : ℕ → MsgKind → Bool) (c : ℕ)
    (hc : c ∈ clients) (hok : ∀ m, fails c m = false) :
    ∀ e ∈ runProducer [tPrev, tNow] clients fails,
      Eff.histComputed ∈ e.2 ∧ ∀ m, Eff.sent c m ∈ e.2 := by
  intro e he
  rcases List.mem_map.mp he with ⟨t, _ht, rfl⟩
  exact ⟨(builds_in_trace clients fails).1, sends_all_of_ok clients fails c hc hok⟩

theorem no_rate_limiting_c4_witness :
    Eff.histComputed ∈ callbackTrace [7] (fun _ _ => false) ∧
    ∀ m, Eff.sent 7 m ∈ callbackTrace [7] (fun _ _ => false) :=
  no_rate_limiting_c4 0 10 (by decide) [7] (fun _ _ => false) 7 (by decide)
    (fun _ => rfl) (0, callbackTrace [7] (fun _ _ => false)) (by decide)

/-- C9: pipeline start is one-shot: over every sequence of connect and
disconnect events, at most one producer task is ever created; the started
flag is set exactly when a task was created; once set it never resets
under any further events; and it is set exactly when some client has
connected (first client registration is the trigger). -/
theorem pipeline_one_shot_c9 (evs : List Ev) :
    (run evs).producerTasks ≤ 1 ∧
    ((run evs).started = true ↔ (run evs).producerTasks = 1) ∧
    (∀ more, (run evs).started = true → (run (evs ++ more)).started = true) ∧
    ((run evs).started = true ↔ ∃ c, Ev.wsOpen c ∈ evs) := by
  refine ⟨(foldl_step_inv evs initState (by decide) (by decide)).1,
    (foldl_step_inv evs initState (by decide) (by decide)).2, ?_, ?_⟩
  · intro more h
    rw [run, List.foldl_append]
    exact foldl_step_started_mono more _ h
  · rw [run, foldl_step_started_iff]
    simp [initState]

theorem pipeline_one_shot_c9_witness :
    (run [Ev.wsOpen 1, Ev.wsClose 1, Ev.wsOpen 2]).producerTasks ≤ 1 ∧
    (run ([Ev.wsOpen 1, Ev.wsClose 1, Ev.wsOpen 2] ++ [Ev.wsOpen 3])).started = true :=
  ⟨(pipeline_one_shot_c9 [Ev.wsOpen 1, Ev.wsClose 1, Ev.wsOpen 2]).1,
    (pipeline_one_shot_c9 [Ev.wsOpen 1, Ev.wsClose 1, Ev.wsOpen 2]).2.2.1
      [Ev.wsOpen 3] (by decide)⟩

/-! ## Histogram lemmas -/

theorem inBin_eq_true_iff (i v : ℕ) (hv : v < 4096) :
    inBin i v = true ↔ i = v / 4 := by
  unfold inBin
  by_cases h : i = 1023
  · subst h
    rw [if_pos rfl, decide_eq_true_eq]
    omega
  · rw [if_neg h, decide_eq_true_eq]
    omega

theorem countP_bins_sum (vals : List ℕ) (h : ∀ v ∈ vals, v < 4096) :
    ∑ i in Finset.range 1024, vals.countP (inBin i) = vals.length := by
  induction vals with
  | nil => simp
  | cons v vs ih =>
      have hv : v < 4096 := h v (List.mem_cons_self _ _)
      have ihh := ih (fun w hw => h w (List.mem_cons_of_mem _ hw))
      have hcongr : ∀ i ∈ Finset.range 1024,
          (if inBin i v = true then 1 else 0) = if i = v / 4 then 1 else 0 := by
        intro i _
        by_cases hi : inBin i v = true
        · rw [if_pos hi, if_pos ((inBin_eq_true_iff i v hv).mp hi)]
        · rw [if_neg hi, if_neg (fun hc => hi ((inBin_eq_true_iff i v hv).mpr hc))]
      have hone : ∑ i in Finset.range 1024, (if inBin i v = true then 1 else 0) = 1 := by
        rw [Finset.sum_congr rfl hcongr,
          Finset.sum_ite_eq' (Finset.range 1024) (v / 4) (fun _ => 1),
          if_pos (Finset.mem_range.mpr (by omega))]
      simp only [List.countP_cons, List.length_cons]
      rw [Finset.sum_add_distrib, ihh, hone]

theorem rawHist_length (vals : List ℕ) : (rawHist vals).length = 1024 := by
  simp [rawHist]

theorem rawHist_sum (vals : List ℕ) (h : ∀ v ∈ vals, v < 4096) :
    (rawHist vals).sum = vals.length := by
  unfold rawHist
  rw [show ((List.range 1024).map (fun i => (vals.filter (inBin i)).length)).sum
        = ∑ i in Finset.range 1024, (vals.filter (inBin i)).length from rfl]
  rw [Finset.sum_congr rfl (fun i _ => (List.countP_eq_length_filter (inBin i) vals).symm)]
  exact countP_bins_sum vals h

theorem rawHist_eq_concat (vals : List ℕ) :
    rawHist vals =
      ((List.range 1023).map (fun i => (vals.filter (inBin i)).length))
        ++ [satCount vals] := by
  unfold rawHist satCount
  rw [show (1024 : ℕ) = 1023 + 1 from rfl, List.range_succ, List.map_append]
  rfl

theorem zeroLast_concat (a : List ℕ) (x : ℕ) : zeroLast (a ++ [x]) = a ++ [0] := by
  unfold zeroLast
  rw [if_neg (by simp), List.dropLast_concat]

theorem compute_histogram_fst (vals : List ℕ) :
    (compute_histogram vals).1 = zeroLast (rawHist vals) := by
  simp only [compute_histogram]

/-- The flattened normalized frame has one sample per pixel, each below
4096, for a uniform grid of 16-bit samples. -/
theorem normalized_flatten_facts (f : List (List ℕ)) (rows cols : ℕ)
    (hr : f.length = rows) (hc : ∀ row ∈ f, row.length = cols)
    (hv : ∀ row ∈ f, ∀ v ∈ row, v < 65536) :
    (normalizeFrame f).flatten.length = rows * cols ∧
    ∀ v ∈ (normalizeFrame f).flatten, v < 4096 := by
  constructor
  · rw [List.length_flatten]
    unfold normalizeFrame
    rw [List.map_map]
    have : f.map (List.length ∘ fun row => row.map (fun v => v / 16))
        = f.map (fun _ => cols) := by
      refine List.map_congr_left fun row hrow => ?_
      simp [hc row hrow]
    rw [this]
    rw [show (List.map (fun _ => cols) f) = List.replicate f.length cols from
      List.map_const f cols]
    rw [List.sum_replicate, smul_eq_mul, hr]
  · intro v hvmem
    rcases List.mem_flatten.mp hvmem with ⟨r, hrmem, hvr⟩
    rcases List.mem_map.mp hrmem with ⟨row0, hrow0, rfl⟩
    rcases List.mem_map.mp hvr with ⟨w, hw, rfl⟩
    have := hv row0 hrow0 w hw
    omega

/-! ## Histogram / normalization claim theorems -/

/-- C5: for every uniform 2D grid of 16-bit unsigned samples, the
histogram the processing pipeline produces has exactly 1024 bins, its
last bin count is 0, and its counts sum to rows × cols minus the count
that fell into the saturation (last) bin before zeroing. -/
theorem histogram_shape_c5 (f : List (List ℕ)) (rows cols : ℕ)
    (hr : f.length = rows) (hc : ∀ row ∈ f, row.length = cols)
    (hv : ∀ row ∈ f, ∀ v ∈ row, v < 65536) :
    (compute_histogram (normalizeFrame f).flatten).1.length = 1024 ∧
    (compute_histogram (normalizeFrame f).flatten).1.getLast? = some 0 ∧
    (compute_histogram (normalizeFrame f).flatten).1.sum
      = rows * cols - satCount (normalizeFrame f).flatten := by
  obtain ⟨hlen, hvals⟩ := normalized_flatten_facts f rows cols hr hc hv
  have hsum := rawHist_sum (normalizeFrame f).flatten hvals
  have hdec := rawHist_eq_concat (normalizeFrame f).flatten
  have hzl : (compute_histogram (normalizeFrame f).flatten).1
      = ((List.range 1023).map
          (fun i => ((normalizeFrame f).flatten.filter (inBin i)).length)) ++ [0] := by
    rw [compute_histogram_fst, hdec, zeroLast_concat]
  refine ⟨?_, ?_, ?_⟩
  · rw [hzl, List.length_append, List.length_map, List.length_range]
    rfl
  · rw [hzl, List.getLast?_concat]
  · rw [hzl, List.sum_append]
    have hsplit : (((List.range 1023).map
        (fun i => ((normalizeFrame f).flatten.filter (inBin i)).length)).sum)
          + satCount (normalizeFrame f).flatten = rows * cols := by
      have := congrArg List.sum hdec
      rw [List.sum_append] at this
      simp only [List.sum_cons, List.sum_nil] at this
      omega
    simp only [List.sum_cons, List.sum_nil]
    omega

theorem histogram_shape_c5_witness :
    (compute_histogram (normalizeFrame [[0, 65535], [16, 32]]).flatten).1.length = 1024 ∧
    (compute_histogram (normalizeFrame [[0, 65535], [16, 32]]).flatten).1.getLast? = some 0 ∧
    (compute_histogram (normalizeFrame [[0, 65535], [16, 32]]).flatten).1.sum
      = 2 * 2 - satCount (normalizeFrame [[0, 65535], [16, 32]]).flatten :=
  histogram_shape_c5 [[0, 65535], [16, 32]] 2 2 rfl (by decide) (by decide)

/-- C8: bit-depth normalization is the pure elementwise map v ↦ v >>> 4,
and on 16-bit samples every normalized sample lies below 4096. -/
theorem normalization_c8 (f : List (List ℕ))
    (hv : ∀ row ∈ f, ∀ v ∈ row, v < 65536) :
    normalizeFrame f = f.map (fun row => row.map (fun v => v >>> 4)) ∧
    ∀ row ∈ normalizeFrame f, ∀ v ∈ row, v < 4096 := by
  constructor
  · unfold normalizeFrame
    refine List.map_congr_left fun row _ => ?_
    refine List.map_congr_left fun v _ => ?_
    rw [Nat.shiftRight_eq_div_pow]
  · intro row hrow v hvv
    rcases List.mem_map.mp hrow with ⟨row0, hrow0, rfl⟩
    rcases List.mem_map.mp hvv with ⟨w, hw, rfl⟩
    have := hv row0 hrow0 w hw
    omega

theorem normalization_c8_witness :
    normalizeFrame [[15, 16], [4095, 65535]]
      = [[15, 16], [4095, 65535]].map (fun row => row.map (fun v => v >>> 4)) ∧
    ∀ row ∈ normalizeFrame [[15, 16], [4095, 65535]], ∀ v ∈ row, v < 4096 :=
  normalization_c8 [[15, 16], [4095, 65535]] (by decide)

/-- C10: the 1024 bin-edge midpoints are exactly the even integers
4·i + 2 for i = 0..1023 — both as the exact values of the float
computation and after the uint32 conversion for the wire — and casting
the wire integers back recovers the exact midpoints, so the conversion
loses no information. -/
theorem midpointsQ_eq :
    midpointsQ = (List.range 1024).map (fun i => ((4 * i + 2 : ℕ) : ℚ)) := by
  unfold midpointsQ
  refine List.map_congr_left fun i _ => ?_
  push_cast
  ring

theorem midpointsU32_eq :
    midpointsU32 = (List.range 1024).map (fun i => 4 * i + 2) := by
  unfold midpointsU32
  rw [midpointsQ_eq, List.map_map]
  refine List.map_congr_left fun i _ => ?_
  show (((4 * i + 2 : ℕ) : ℚ)).floor.toNat = 4 * i + 2
  have hfl : (((4 * i + 2 : ℕ) : ℚ)).floor = ⌊((4 * i + 2 : ℕ) : ℚ)⌋ := rfl
  rw [hfl, Int.floor_natCast]
  rfl

theorem midpointsU32_length : midpointsU32.length = 1024 := by
  rw [midpointsU32_eq, List.length_map, List.length_range]

theorem midpointsU32_lt : ∀ x ∈ midpointsU32, x < 4294967296 := by
  rw [midpointsU32_eq]
  intro x hx
  rcases List.mem_map.mp hx with ⟨i, hi, rfl⟩
  have := List.mem_range.mp hi
  omega

theorem midpoints_exact_c10 :
    midpointsQ = (List.range 1024).map (fun i => ((4 * i + 2 : ℕ) : ℚ)) ∧
    midpointsU32 = (List.range 1024).map (fun i => 4 * i + 2) ∧
    List.map (fun n : ℕ => (n : ℚ)) midpointsU32 = midpointsQ := by
  refine ⟨midpointsQ_eq, midpointsU32_eq, ?_⟩
  rw [midpointsU32_eq, midpointsQ_eq, List.map_map]
  exact List.map_congr_left fun i _ => rfl

/-! ## Wire-encoding lemmas -/

theorem expectLit_append (lit rest : List Char) :
    expectLit lit (lit ++ rest) = some rest := by
  unfold expectLit
  rw [List.take_left, if_pos rfl, List.drop_left]

theorem takeWhile_append_cons (p : Char → Bool) (l : List Char) (x : Char)
    (r : List Char) (hl : ∀ c ∈ l, p c = true) (hx : p x = false) :
    (l ++ x :: r).takeWhile p = l ∧ (l ++ x :: r).dropWhile p = x :: r := by
  induction l with
  | nil =>
      constructor
      · rw [List.nil_append, List.takeWhile_cons, if_neg (by simp [hx])]
      · rw [List.nil_append, List.dropWhile_cons, if_neg (by simp [hx])]
  | cons a as ih =>
      have ha : p a = true := hl a (List.mem_cons_self _ _)
      obtain ⟨ih1, ih2⟩ := ih (fun c hc => hl c (List.mem_cons_of_mem _ hc))
      constructor
      · rw [List.cons_append, List.takeWhile_cons, if_pos (by rw [ha]), ih1]
      · rw [List.cons_append, List.dropWhile_cons, if_pos (by rw [ha]), ih2]

theorem takeToQuote_eq (l rest : List Char) (hl : ∀ c ∈ l, c ≠ '"') :
    takeToQuote (l ++ '"' :: rest) = (l, '"' :: rest) := by
  unfold takeToQuote
  have h := takeWhile_append_cons (fun c => c ≠ '"') l '"' rest
    (fun c hc => decide_eq_true (hl c hc)) (by decide)
  rw [h.1, h.2]

theorem digitChar_toNat (d : ℕ) (hd : d < 10) : (digitChar d).toNat = 48 + d := by
  interval_cases d <;> decide

theorem digitChar_isDigit (d : ℕ) (hd : d < 10) : (digitChar d).isDigit = true := by
  interval_cases d <;> decide

theorem natDigits_all_digits (n : ℕ) : ∀ c ∈ natDigits n, c.isDigit = true := by
  induction n using Nat.strong_induction_on with
  | _ n ih =>
      rw [natDigits]
      by_cases h : n < 10
      · rw [dif_pos h]
        intro c hc
        rcases List.mem_singleton.mp hc with rfl
        exact digitChar_isDigit n h
      · rw [dif_neg h]
        intro c hc
        rcases List.mem_append.mp hc with h1 | h1
        · exact ih (n / 10) (Nat.div_lt_self (by omega) (by omega)) c h1
        · rcases List.mem_singleton.mp h1 with rfl
          exact digitChar_isDigit (n % 10) (Nat.mod_lt _ (by omega))

theorem digitsVal_go (n : ℕ) : ∀ acc : ℕ,
    (natDigits n).foldl (fun a c => a * 10 + (c.toNat - 48)) acc
      = acc * 10 ^ (natDigits n).length + n := by
  induction n using Nat.strong_induction_on with
  | _ n ih =>
      intro acc
      rw [natDigits]
      by_cases h : n < 10
      · rw [dif_pos h]
        simp only [List.foldl_cons, List.foldl_nil, List.length_singleton,
          pow_one, digitChar_toNat n h]
        omega
      · rw [dif_neg h]
        rw [List.foldl_append, ih (n / 10) (Nat.div_lt_self (by omega) (by omega)) acc]
        simp only [List.foldl_cons, List.foldl_nil, List.length_append,
          List.length_singleton, digitChar_toNat (n % 10) (Nat.mod_lt _ (by omega))]
        have hdm : n / 10 * 10 + n % 10 = n := by omega
        calc (acc * 10 ^ (natDigits (n / 10)).length + n / 10) * 10 + (48 + n % 10 - 48)
            = acc * (10 ^ (natDigits (n / 10)).length * 10)
              + (n / 10 * 10 + n % 10) := by ring_nf; omega
          _ = acc * 10 ^ ((natDigits (n / 10)).length + 1) + n := by rw [pow_succ, hdm]

theorem digitsVal_natDigits (n : ℕ) : digitsVal (natDigits n) = n := by
  unfold digitsVal
  rw [digitsVal_go n 0, zero_mul, zero_add]

theorem takeDigits_eq (n : ℕ) (x : Char) (rest : List Char) (hx : x.isDigit = false) :
    takeDigits (natDigits n ++ x :: rest) = (natDigits n, x :: rest) := by
  unfold takeDigits
  have h := takeWhile_append_cons Char.isDigit (natDigits n) x rest
    (natDigits_all_digits n) hx
  rw [h.1, h.2]

theorem flatten_toLE4_length (xs : List ℕ) :
    ((xs.map toLE4).flatten).length = 4 * xs.length := by
  induction xs with
  | nil => rfl
  | cons x l ih =>
      rw [List.map_cons, List.flatten_cons, List.length_append, ih, toLE4_length,
        List.length_cons]
      ring

theorem readU32s_append (xs : List ℕ) (rest : List ℕ)
    (h : ∀ x ∈ xs, x < 4294967296) :
    readU32s xs.length ((xs.map toLE4).flatten ++ rest) = xs := by
  induction xs with
  | nil => rfl
  | cons x l ih =>
      have hx : x < 4294967296 := h x (List.mem_cons_self _ _)
      rw [List.map_cons, List.flatten_cons, List.length_cons, List.append_assoc]
      simp only [readU32s]
      rw [show (4 : ℕ) = (toLE4 x).length from (toLE4_length x).symm,
        List.take_left, List.drop_left, fromLE4_toLE4 x hx,
        ih (fun y hy => h y (List.mem_cons_of_mem _ hy))]

/-! ## Wire-encoding claim theorems -/

/-- C6: encoding a frame produces exactly three wire messages, sent in the
fixed order FrameInfo, FrameHistogram, FrameHeader, each prefixed with its
4-byte little-endian magic (0x325a329a, 0x348da5f8, 0xf8a3f8a3
respectively); and each client's send loop emits the three kinds in that
same order. -/
theorem encode_three_messages_c6 (f : List (List ℕ)) (counts : List ℕ)
    (ts dt : List Char) :
    (encode f counts ts dt).length = 3 ∧
    (encode f counts ts dt).map (fun m => m.take 4) =
      [toLE4 0x325a329a, toLE4 0x348da5f8, toLE4 0xf8a3f8a3] ∧
    ∀ c, clientSends (fun _ _ => false) c =
      [Eff.sent c MsgKind.info, Eff.sent c MsgKind.histo,
        Eff.sent c MsgKind.framedata] :=
  ⟨rfl, rfl, fun _ => rfl⟩

theorem expectLit_self (lit : List Char) : expectLit lit lit = some [] := by
  unfold expectLit
  rw [List.take_length, if_pos rfl, List.drop_length]

theorem takeToQuote_append (l t rest : List Char) (hl : ∀ c ∈ l, c ≠ '"') :
    takeToQuote (l ++ (('"' :: t) ++ rest)) = (l, ('"' :: t) ++ rest) := by
  rw [List.cons_append]
  exact takeToQuote_eq l (t ++ rest) hl

theorem takeDigits_append (n : ℕ) (x : Char) (t rest : List Char)
    (hx : x.isDigit = false) :
    takeDigits (natDigits n ++ ((x :: t) ++ rest)) = (natDigits n, (x :: t) ++ rest) := by
  rw [List.cons_append]
  exact takeDigits_eq n x (t ++ rest) hx

theorem parseInfoBody_infoBody (ts dt : List Char) (r c : ℕ)
    (hts : ∀ ch ∈ ts, ch ≠ '"') (hdt : ∀ ch ∈ dt, ch ≠ '"') :
    parseInfoBody (infoBody ts r c dt) = some (ts, r, c, dt) := by
  unfold parseInfoBody infoBody
  rw [show ("\", \"shape\": [".data : List Char)
      = '"' :: ", \"shape\": [".data from rfl]
  rw [show (", ".data : List Char) = ',' :: " ".data from rfl]
  rw [show ("], \"dtype\": \"".data : List Char)
      = ']' :: ", \"dtype\": \"".data from rfl]
  rw [show ("\"\x7d".data : List Char) = '"' :: "\x7d".data from rfl]
  rw [expectLit_append]
  simp only [Option.some_bind]
  rw [takeToQuote_append ts _ _ hts]
  dsimp only
  rw [expectLit_append]
  simp only [Option.some_bind]
  rw [takeDigits_append r ',' _ _ (by decide)]
  dsimp only
  rw [expectLit_append]
  simp only [Option.some_bind]
  rw [takeDigits_append c ']' _ _ (by decide)]
  dsimp only
  rw [expectLit_append]
  simp only [Option.some_bind]
  rw [takeToQuote_eq dt _ hdt]
  dsimp only
  rw [expectLit_self]
  simp only [Option.some_bind]
  rw [if_pos trivial, digitsVal_natDigits, digitsVal_natDigits]

theorem decodeInfo_encodeInfo (ts dt : List Char) (r c : ℕ)
    (hts : ∀ ch ∈ ts, ch ≠ '"') (hdt : ∀ ch ∈ dt, ch ≠ '"') :
    decodeInfo (encodeInfo ts r c dt) = some (ts, r, c, dt) := by
  unfold decodeInfo encodeInfo
  rw [show (4 : ℕ) = (toLE4 frameinfoheader).length from rfl,
    List.take_left, if_pos rfl, List.drop_left]
  have hbody : (utf8 (infoBody ts r c dt)).map Char.ofNat = infoBody ts r c dt := by
    unfold utf8
    rw [List.map_map]
    calc (infoBody ts r c dt).map (Char.ofNat ∘ Char.toNat)
        = (infoBody ts r c dt).map id :=
          List.map_congr_left (fun ch _ => Char.ofNat_toNat ch)
      _ = infoBody ts r c dt := List.map_id _
  rw [hbody]
  exact parseInfoBody_infoBody ts dt r c hts hdt

theorem map_mod_of_lt (counts : List ℕ) (hlt : ∀ n ∈ counts, n < 4294967296) :
    counts.map (fun n => n % 4294967296) = counts := by
  calc counts.map (fun n => n % 4294967296)
      = counts.map id := List.map_congr_left (fun n hn => Nat.mod_eq_of_lt (hlt n hn))
    _ = counts := List.map_id _

theorem decodeHist_encodeHist (counts : List ℕ) (hlen : counts.length = 1024)
    (hlt : ∀ n ∈ counts, n < 4294967296) :
    decodeHist (encodeHist counts) = some (midpointsU32, counts) := by
  unfold decodeHist encodeHist
  rw [map_mod_of_lt counts hlt]
  rw [List.take_left' (toLE4_length framehistogramheader), if_pos rfl]
  have h4100 : (toLE4 framehistogramheader ++ ((midpointsU32.map toLE4).flatten
      ++ (counts.map toLE4).flatten)).drop 4100 = (counts.map toLE4).flatten := by
    rw [← List.append_assoc]
    refine List.drop_left' ?_
    rw [List.length_append, toLE4_length, flatten_toLE4_length, midpointsU32_length]
  have h1 : readU32s 1024 ((midpointsU32.map toLE4).flatten
      ++ (counts.map toLE4).flatten) = midpointsU32 := by
    rw [show (1024 : ℕ) = midpointsU32.length from midpointsU32_length.symm]
    exact readU32s_append midpointsU32 _ midpointsU32_lt
  have h2 : readU32s 1024 ((counts.map toLE4).flatten) = counts := by
    rw [show (1024 : ℕ) = counts.length from hlen.symm]
    have h3 := readU32s_append counts [] hlt
    rwa [List.append_nil] at h3
  rw [List.drop_left' (toLE4_length framehistogramheader), h4100, h1, h2]

/-- C7: decoding the encoded wire messages recovers the original fields:
the frameinfo JSON yields back the timestamp string, the shape
(rows, cols) and the dtype name, and the framehistogram payload yields
back the 1024 bin-edge midpoints and the 1024 bin counts. -/
theorem decode_encode_roundtrip_c7 (ts dt : List Char) (r c : ℕ)
    (counts : List ℕ)
    (hts : ∀ ch ∈ ts, ch ≠ '"') (hdt : ∀ ch ∈ dt, ch ≠ '"')
    (hlen : counts.length = 1024) (hlt : ∀ n ∈ counts, n < 4294967296) :
    decodeInfo (encodeInfo ts r c dt) = some (ts, r, c, dt) ∧
    decodeHist (encodeHist counts) = some (midpointsU32, counts) ∧
    midpointsU32.length = 1024 :=
  ⟨decodeInfo_encodeInfo ts dt r c hts hdt,
    decodeHist_encodeHist counts hlen hlt, midpointsU32_length⟩

theorem decode_encode_roundtrip_c7_witness :
    decodeInfo (encodeInfo "2024-01-01T00:00:00".data 2 3 "uint16".data)
      = some ("2024-01-01T00:00:00".data, 2, 3, "uint16".data) ∧
    decodeHist (encodeHist (List.replicate 1024 0))
      = some (midpointsU32, List.replicate 1024 0) ∧
    midpointsU32.length = 1024 :=
  decode_encode_roundtrip_c7 "2024-01-01T00:00:00".data "uint16".data 2 3
    (List.replicate 1024 0) (by decide) (by decide)
    (List.length_replicate 1024 0)
    (fun n hn => by rcases List.eq_of_mem_replicate hn with rfl; decide)

end Starcam
